import Mathlib

/-!
Shallow embedding of the certificate-resolution and lifetime-managed-cache
core of the caddy-certstore repository.

Native OS handles (stores, identities, signers) are modelled as data: an
`Identity` records the outcomes of the three native calls the code makes on
it (`Certificate()`, `CertificateChain()`, `Signer()`), a store handle is a
numeric id, and every `Close()` call is recorded as an explicit event so
that resource-leak properties can be stated.  Go panics (out-of-range
indexing) are modelled by an outer `Option`: `none` is a panic.  Go `error`
values are strings.  `int32` arithmetic wraps, modelled by `i32add`.
-/

namespace CertStore

/-- Subject/issuer metadata of a certificate, the fields the matcher reads:
`Subject.CommonName`, `Issuer.CommonName`, `SerialNumber.String()`,
`DNSNames`. -/
structure CertInfo where
  subjectCN : String
  issuerCN : String
  serial : String
  dnsNames : List String
  deriving DecidableEq, Repr

/-- An x509 certificate: its raw DER bytes plus the metadata the code
inspects. -/
structure Cert where
  raw : List Nat
  info : CertInfo
  deriving DecidableEq, Repr

/-- Result of a fallible Go call returning `(T, error)`. -/
abbrev Res (α : Type) : Type := Except String α

instance {α} [DecidableEq α] : DecidableEq (Res α) := fun a b =>
  match a, b with
  | .ok x, .ok y => if h : x = y then .isTrue (by rw [h]) else .isFalse (by
      intro hc; apply h; cases hc; rfl)
  | .error x, .error y => if h : x = y then .isTrue (by rw [h]) else .isFalse (by
      intro hc; apply h; cases hc; rfl)
  | .ok _, .error _ => .isFalse (by intro hc; cases hc)
  | .error _, .ok _ => .isFalse (by intro hc; cases hc)

instance {α} [Repr α] : Repr (Res α) := instReprExcept

/-- A native identity handle: a numeric id plus the outcomes of the native
calls the code can make on it.  `signerResult = .ok none` models the Go
possibility of `Signer()` returning a nil `crypto.Signer` with a nil error
(the code's own `isValidCertificate` guards against exactly that nil). -/
structure Identity where
  id : Nat
  certResult : Res CertInfo
  chainResult : Res (List Cert)
  signerResult : Res (Option Nat)
  deriving DecidableEq, Repr

/-- A `Close()` call on a native handle, recorded in order of occurrence. -/
inductive CloseEvent where
  | ident (id : Nat)
  | store (id : Nat)
  deriving DecidableEq, Repr

/-- `certstore.StoreLocation`: the two locations the code distinguishes. -/
inductive StoreLocation where
  | system
  | user
  deriving DecidableEq, Repr

/-- `strings.ToLower`, modelled character-by-character with the ASCII
lowercase map (Go lowercases full Unicode; only the ASCII keywords "user"
and "system" matter to the switch below). -/
def toLowerStr (s : String) : String := ⟨s.data.map Char.toLower⟩

/-- `getStoreLocation` (operations.go): converts a string location to a
`certstore.StoreLocation` via `strings.ToLower` and a switch whose default
is `certstore.System`. -/
def getStoreLocation (location : String) : StoreLocation :=
  match toLowerStr location with
  | "system" => StoreLocation.system
  | "user" => StoreLocation.user
  | _ => StoreLocation.system

/-- The regex metacharacter list of `isRegexPattern` (the transport file):
asterisk, plus, question mark, caret, dollar, parentheses, square brackets,
curly braces (code points 123 and 125), pipe and backslash.  The dot is
deliberately absent. -/
def regexChars : List Char :=
  ['*', '+', '?', '^', '$', '(', ')', '[', ']', Char.ofNat 123, Char.ofNat 125,
   '|', '\\']

/-- `isRegexPattern` (the transport file): ranges over the runes of `s` and
returns true as soon as one is contained in `regexChars`. -/
def isRegexPattern (s : String) : Bool :=
  s.data.any (fun r => regexChars.contains r)

/-- The portable `tls.Certificate` value the builder produces: `Leaf`,
`Certificate` (raw DER chain) and `PrivateKey` (nil-able signer handle). -/
structure TLSCert where
  leaf : Cert
  certificate : List (List Nat)
  privateKey : Option Nat
  deriving DecidableEq, Repr

/-- `serializeCertificateChain` (operations.go): the raw DER bytes of each
chain element, in order. -/
def serializeCertificateChain (chain : List Cert) : List (List Nat) :=
  chain.map (fun cert => cert.raw)

/-- `buildTLSCertificate` (operations.go / the matcher file): retrieves the
chain, then the signer, then builds the value, indexing `certChain[0]`
without an emptiness guard.  `none` models the panic that indexing raises
on an empty chain; neither failure branch closes the identity. -/
def buildTLSCertificate (identity : Identity) : Option (Res TLSCert) :=
  match identity.chainResult with
  | .error e => some (.error e)
  | .ok certChain =>
    match identity.signerResult with
    | .error e => some (.error e)
    | .ok signer =>
      match certChain with
      | [] => none
      | leaf :: _ =>
        some (.ok { leaf := leaf,
                    certificate := serializeCertificateChain certChain,
                    privateKey := signer })

/-- `isValidCertificate` (operations.go): non-empty DER chain and non-nil
private key. -/
def isValidCertificate (cert : TLSCert) : Bool :=
  cert.certificate.length != 0 && cert.privateKey.isSome

/-- An opaque compiled regular expression: the code only ever calls
`pattern.MatchString(v)` and `pattern.String()`, so the embedding carries
the match predicate and the pattern text. -/
structure CompiledPattern where
  str : String
  matchString : String → Bool

/-- `getFieldSelector` (the matcher file): maps the configured field name to
the certificate-metadata accessor; `dns_names` reads the first DNS SAN or
the empty string; the default is the subject common name. -/
def getFieldSelector (field : String) : CertInfo → String :=
  match field with
  | "issuer" => fun cert => cert.issuerCN
  | "serial" => fun cert => cert.serial
  | "dns_names" => fun cert =>
      match cert.dnsNames with
      | [] => ""
      | d :: _ => d
  | _ => fun cert => cert.subjectCN

/-- The loop of `findMatchingIdentity`: examine identities in order; on a
metadata-read failure close the candidate and continue; on a field match
keep the candidate and break (identities after the break are not touched);
otherwise close the candidate and continue.  Returns the match (if any)
and the `Close` events the loop issued, in order. -/
def findLoop (identities : List Identity) (sel : CertInfo → String)
    (pattern : CompiledPattern) : Option Identity × List CloseEvent :=
  match identities with
  | [] => (none, [])
  | tmpID :: rest =>
    match tmpID.certResult with
    | .error _ =>
      let (m, evs) := findLoop rest sel pattern
      (m, CloseEvent.ident tmpID.id :: evs)
    | .ok certInfo =>
      if pattern.matchString (sel certInfo) then
        (some tmpID, [])
      else
        let (m, evs) := findLoop rest sel pattern
        (m, CloseEvent.ident tmpID.id :: evs)

/-- `findMatchingIdentity` (the matcher file, regex version): requires a
pattern, scans the identities with `getFieldSelector field`, and reports
"no identity found matching pattern P in field F" when the loop ends
without a match (the source wraps P and F in single quotes).  The second
component lists the `Close` calls the function issued. -/
def findMatchingIdentity (identities : List Identity)
    (pattern : Option CompiledPattern) (field : String) :
    Res Identity × List CloseEvent :=
  match pattern with
  | none => (.error "pattern is required", [])
  | some p =>
    match findLoop identities (getFieldSelector field) p with
    | (some m, evs) => (.ok m, evs)
    | (none, evs) =>
      (.error ("no identity found matching pattern " ++ p.str ++ " in field "
                ++ field), evs)

/-- A native store handle: its id and the outcome of `Identities()`. -/
structure StoreHandle where
  id : Nat
  identitiesResult : Res (List Identity)
  deriving Repr

/-- The native-store environment a resolution runs against: the outcome of
`certstore.Open` at each location. -/
structure StoreEnv where
  openStore : StoreLocation → Res StoreHandle

/-- `CertSelector` (selector.go): the configuration consumed by
`loadCertificateWithResources` — the compiled pattern (nil when the
configured name is not a regex), the target field and the store location.
The logger is omitted: the logging block only reads metadata and has no
effect on handles or results. -/
structure CertSelector where
  pattern : Option CompiledPattern
  field : String
  location : String

/-- `loadCertificateWithResources` (selector.go): opens the store, lists
identities, delegates to the matcher and the builder, and closes handles
exactly as the source does on each branch.  The outer `Option` is `none`
when `buildTLSCertificate` panics.  The result carries the certificate,
the still-open store id and identity, and the `Close` events issued. -/
def loadCertificateWithResources (cs : CertSelector) (env : StoreEnv) :
    Option (Res (TLSCert × Nat × Identity)) × List CloseEvent :=
  match env.openStore (getStoreLocation cs.location) with
  | .error e => (some (.error e), [])
  | .ok store =>
    match store.identitiesResult with
    | .error e => (some (.error e), [CloseEvent.store store.id])
    | .ok identities =>
      match findMatchingIdentity identities cs.pattern cs.field with
      | (.error e, evs) =>
        (some (.error (e ++ " in " ++ cs.location ++ " store")),
         evs ++ [CloseEvent.store store.id])
      | (.ok identity, evs) =>
        match buildTLSCertificate identity with
        | none => (none, evs)
        | some (.error e) =>
          (some (.error e),
           evs ++ [CloseEvent.ident identity.id, CloseEvent.store store.id])
        | some (.ok cert) => (some (.ok (cert, store.id, identity)), evs)

/-- The handles a run of `loadCertificateWithResources` opens: the store (if
`Open` succeeded) and every identity of the enumeration (if `Identities()`
succeeded). -/
def openedHandles (cs : CertSelector) (env : StoreEnv) : List CloseEvent :=
  match env.openStore (getStoreLocation cs.location) with
  | .error _ => []
  | .ok store =>
    CloseEvent.store store.id ::
      match store.identitiesResult with
      | .error _ => []
      | .ok identities => identities.map (fun i => CloseEvent.ident i.id)

/-- Two-complement wrap of `int32` addition (`atomic.AddInt32`). -/
def i32add (a b : Int) : Int :=
  (a + b + 2 ^ 31) % 2 ^ 32 - 2 ^ 31

/-- `cachedCert` (the cache file): the shared certificate, the owning native
identity and store handles (nil-able interface fields), the reference count
and the cache key. -/
structure CachedCert where
  cert : TLSCert
  identity : Option Identity
  storeId : Option Nat
  refCount : Int
  cacheKey : String
  deriving DecidableEq, Repr

/-- The process-wide `certCache` table, keyed by each entry's `cacheKey`.
The Go map is modelled as a list whose keys the operations keep unique. -/
abbrev CacheState : Type := List CachedCert

/-- `makeCacheKey` (the cache file): the SHA-256 thumbprint of the leaf
certificate's raw DER bytes, hex-printed.  The hash is modelled as an
injective encoding of the bytes (collisions abstracted away); like the
64-character hex digest it is never empty (leading marker character). -/
def makeCacheKey (cert : Cert) : String :=
  ⟨'k' :: cert.raw.map Char.ofNat⟩

/-- `certCache[cacheKey]` lookup. -/
def cacheLookup (cache : CacheState) (cacheKey : String) : Option CachedCert :=
  cache.find? (fun c => c.cacheKey == cacheKey)

/-- `atomic.AddInt32(&cached.refCount, 1)` on the entry for `cacheKey`. -/
def cacheBump (cache : CacheState) (cacheKey : String) : CacheState :=
  cache.map (fun c =>
    if c.cacheKey == cacheKey then { c with refCount := i32add c.refCount 1 }
    else c)

/-- Store the decremented count in the entry for `cacheKey`. -/
def cacheSet (cache : CacheState) (cacheKey : String) (n : Int) : CacheState :=
  cache.map (fun c =>
    if c.cacheKey == cacheKey then { c with refCount := n } else c)

/-- `delete(certCache, cacheKey)`. -/
def cacheRemove (cache : CacheState) (cacheKey : String) : CacheState :=
  cache.filter (fun c => !(c.cacheKey == cacheKey))

/-- `getCachedCertificate` (the cache file): loads via
`loadCertificateWithResources`, computes the cache key from the leaf, and
under the table lock either reuses the existing entry (closing the newly
opened identity and store, in that order, and bumping the count) or inserts
a fresh entry with count 1.  Returns the certificate and key, the new table,
and the `Close` events issued; the outer `Option` is `none` on a panic. -/
def getCachedCertificate (cs : CertSelector) (env : StoreEnv)
    (cache : CacheState) :
    Option (Res (TLSCert × String)) × CacheState × List CloseEvent :=
  match loadCertificateWithResources cs env with
  | (none, evs) => (none, cache, evs)
  | (some (.error e), evs) => (some (.error e), cache, evs)
  | (some (.ok (cert, storeId, identity)), evs) =>
    let cacheKey := makeCacheKey cert.leaf
    match cacheLookup cache cacheKey with
    | some cached =>
      (some (.ok (cached.cert, cacheKey)),
       cacheBump cache cacheKey,
       evs ++ [CloseEvent.ident identity.id, CloseEvent.store storeId])
    | none =>
      (some (.ok (cert, cacheKey)),
       { cert := cert, identity := some identity, storeId := some storeId,
         refCount := 1, cacheKey := cacheKey } :: cache,
       evs)

/-- `releaseCachedCertificate` (the cache file): under the table lock, a
missing key is a no-op; otherwise the count is decremented and, when the
result is ≤ 0, the identity is closed, then the store, and the entry is
deleted.  Returns the new table and the `Close` events issued. -/
def releaseCachedCertificate (cacheKey : String) (cache : CacheState) :
    CacheState × List CloseEvent :=
  match cacheLookup cache cacheKey with
  | none => (cache, [])
  | some cached =>
    let newCount := i32add cached.refCount (-1)
    if newCount ≤ 0 then
      (cacheRemove cache cacheKey,
       (match cached.identity with
        | some i => [CloseEvent.ident i.id]
        | none => []) ++
       (match cached.storeId with
        | some s => [CloseEvent.store s]
        | none => []))
    else
      (cacheSet cache cacheKey newCount, [])

/-- The runtime state of a `CertSelector` inside the transport: the cache
key stored by `loadCertificate` (empty until a resolution succeeds). -/
structure ClientCertState where
  cacheKey : String
  deriving DecidableEq, Repr

/-- `HTTPTransport` (the transport file), reduced to the field `Cleanup`
reads: the optional client-certificate selector.  The embedded reverse-proxy
transport is external and its own `Cleanup` has no effect on this state. -/
structure HTTPTransport where
  clientCert : Option ClientCertState
  deriving DecidableEq, Repr

/-- `HTTPTransport.Cleanup` (the transport file): when a client certificate
selector is present and its cache key is non-empty, calls
`releaseCachedCertificate` with that key.  The transport (in particular the
stored cache key) is returned unchanged: the source never clears
`cacheKey`. -/
def transportCleanup (h : HTTPTransport) (cache : CacheState) :
    HTTPTransport × CacheState × List CloseEvent :=
  match h.clientCert with
  | some cc =>
    if cc.cacheKey ≠ "" then
      let (cache', evs) := releaseCachedCertificate cc.cacheKey cache
      (h, cache', evs)
    else
      (h, cache, [])
  | none => (h, cache, [])

/-- A resolution step of the cache: the table after one
`getCachedCertificate` call (close events and return value dropped). -/
def resolveStep (p : CertSelector × StoreEnv) (cache : CacheState) :
    CacheState :=
  (getCachedCertificate p.1 p.2 cache).2.1

/-- The table after a sequence of `getCachedCertificate` calls. -/
def runResolves (ops : List (CertSelector × StoreEnv)) (cache : CacheState) :
    CacheState :=
  ops.foldl (fun c p => resolveStep p c) cache

/-- A release step: the table after one `releaseCachedCertificate` call. -/
def releaseStep (cacheKey : String) (cache : CacheState) : CacheState :=
  (releaseCachedCertificate cacheKey cache).1

/-- The table after `j` `releaseCachedCertificate` calls with `cacheKey`. -/
def runReleases (cacheKey : String) (j : Nat) (cache : CacheState) :
    CacheState :=
  (releaseStep cacheKey)^[j] cache

/-- A `getCachedCertificate` call with these parameters succeeds at the load
stage and resolves to the fingerprint `cacheKey`. -/
def resolvesToKey (p : CertSelector × StoreEnv) (cacheKey : String) : Prop :=
  ∃ r evs, loadCertificateWithResources p.1 p.2 = (some (.ok r), evs) ∧
    makeCacheKey r.1.leaf = cacheKey

/-- An identity satisfies the matching rule: its metadata is readable and
the selected field matches the pattern. -/
def matchesRule (p : CompiledPattern) (field : String) (i : Identity) : Prop :=
  ∃ info, i.certResult = .ok info ∧
    p.matchString (getFieldSelector field info) = true

/-! Concrete fixtures used by witnesses and counterexamples. -/

/-- Metadata whose subject common name does not match the test pattern. -/
def infoNoMatch : CertInfo := ⟨"a", "", "", []⟩

/-- Metadata whose subject common name matches the test pattern. -/
def infoMatch : CertInfo := ⟨"b", "", "", []⟩

/-- A concrete leaf certificate. -/
def leafCert : Cert := ⟨[1, 2, 3], infoMatch⟩

/-- A concrete pattern matching exactly the string "b". -/
def patB : CompiledPattern := ⟨"b", fun s => s == "b"⟩

/-- Identity 0: readable metadata, does not match `patB`. -/
def idA : Identity := ⟨0, .ok infoNoMatch, .ok [leafCert], .ok (some 7)⟩

/-- Identity 1: readable metadata, matches `patB`, healthy chain/signer. -/
def idB : Identity := ⟨1, .ok infoMatch, .ok [leafCert], .ok (some 7)⟩

/-- Identity 2: readable metadata, matches `patB`, healthy chain/signer. -/
def idC : Identity := ⟨2, .ok infoMatch, .ok [leafCert], .ok (some 7)⟩

/-- Identity 1 with a failing `CertificateChain()` call. -/
def idChainErr : Identity :=
  ⟨1, .ok infoMatch, .error "chain unavailable", .ok (some 7)⟩

/-- Identity 3 whose `Signer()` returns a nil signer with a nil error. -/
def idNilSigner : Identity := ⟨3, .ok infoMatch, .ok [leafCert], .ok none⟩

/-- A selector matching `patB` against the subject common name. -/
def csOk : CertSelector := ⟨some patB, "subject", "user"⟩

/-- Environment: store 10 holds only the healthy matching identity. -/
def envOk : StoreEnv := ⟨fun _ => .ok ⟨10, .ok [idB]⟩⟩

/-- Environment: store 10 holds a matching identity whose chain retrieval
fails, followed by a further identity. -/
def envBuilderFail : StoreEnv := ⟨fun _ => .ok ⟨10, .ok [idChainErr, idC]⟩⟩

/-- Environment: store 11 holds only the nil-signer identity. -/
def envNilSigner : StoreEnv := ⟨fun _ => .ok ⟨11, .ok [idNilSigner]⟩⟩

/-- The certificate the builder produces from `idB`. -/
def certB : TLSCert := ⟨leafCert, [[1, 2, 3]], some 7⟩

/-- The certificate the builder produces from `idNilSigner`: nil key. -/
def certNil : TLSCert := ⟨leafCert, [[1, 2, 3]], none⟩

/-- A resident cache entry for `certB` with reference count 1. -/
def entryB : CachedCert :=
  ⟨certB, some idB, some 10, 1, makeCacheKey leafCert⟩

/-- The invalid entry `getCachedCertificate` inserts from `idNilSigner`. -/
def entryNil : CachedCert :=
  ⟨certNil, some idNilSigner, some 11, 1, makeCacheKey leafCert⟩

/-- A cache entry under key "K" shared by two holders. -/
def entryK : CachedCert := ⟨certB, some idB, some 10, 2, "K"⟩

/-- A transport whose selector stored the fingerprint "K". -/
def trans6 : HTTPTransport := ⟨some ⟨"K"⟩⟩

/-! Theorems. -/

/-- C8: `getStoreLocation` matches its argument case-insensitively: "user"
maps to the user store location, "system" to the system store location, and
every other string (the empty string included) silently falls back to the
system-wide default. -/
theorem getStoreLocation_case_insensitive_with_system_default :
    (∀ s : String, toLowerStr s = "user" →
      getStoreLocation s = StoreLocation.user) ∧
    (∀ s : String, toLowerStr s = "system" →
      getStoreLocation s = StoreLocation.system) ∧
    (∀ s : String, toLowerStr s ≠ "user" → toLowerStr s ≠ "system" →
      getStoreLocation s = StoreLocation.system) ∧
    getStoreLocation "" = StoreLocation.system := by
  refine ⟨fun s h => ?_, fun s h => ?_, fun s h1 h2 => ?_, by decide⟩
  · unfold getStoreLocation
    rw [h]
    decide
  · unfold getStoreLocation
    rw [h]
    decide
  · unfold getStoreLocation
    split <;> simp_all

/-- C9: `isRegexPattern s` is true iff `s` contains a character of the
metacharacter set (asterisk, plus, question mark, caret, dollar,
parentheses, square brackets, curly braces, pipe, backslash — pinned below
by code point); the dot is not in the set, so a string none of whose
characters is a metacharacter (a plain FQDN) is classified as a literal,
while a string containing any metacharacter (dots or not) is classified as
a regex. -/
theorem isRegexPattern_iff_contains_metachar :
    (∀ s : String, isRegexPattern s = true ↔
      ∃ c, c ∈ s.data ∧ c ∈ regexChars) ∧
    regexChars.map Char.toNat =
      [42, 43, 63, 94, 36, 40, 41, 91, 93, 123, 125, 124, 92] ∧
    ('.' ∈ regexChars → False) ∧
    (∀ s : String, (∀ c, c ∈ s.data → c ∈ regexChars → False) →
      isRegexPattern s = false) ∧
    (∀ s : String, ∀ c, c ∈ s.data → c ∈ regexChars →
      isRegexPattern s = true) := by
  have hiff : ∀ s : String, isRegexPattern s = true ↔
      ∃ c, c ∈ s.data ∧ c ∈ regexChars := by
    intro s
    unfold isRegexPattern
    simp [List.any_eq_true, List.elem_iff]
  refine ⟨hiff, by decide, by decide, fun s h => ?_, fun s c hc hm => ?_⟩
  · cases he : isRegexPattern s with
    | true =>
      obtain ⟨c, hcs, hcm⟩ := (hiff s).mp he
      exact absurd hcm (fun hx => h c hcs hx)
    | false => rfl
  · exact (hiff s).mpr ⟨c, hc, hm⟩

/-- C10: `buildTLSCertificate` is partial in the chain length: when the
native chain call returns an empty chain with a nil error it indexes the
first element without a guard and panics (modelled as `none`); whenever
every successfully retrieved chain is non-empty it is total and returns a
value. -/
theorem buildTLSCertificate_panics_on_empty_chain :
    (∀ (identity : Identity) (signer : Option Nat),
      identity.chainResult = .ok [] →
      identity.signerResult = .ok signer →
      buildTLSCertificate identity = none) ∧
    (∀ identity : Identity,
      (∀ chain, identity.chainResult = .ok chain → chain ≠ []) →
      buildTLSCertificate identity ≠ none) := by
  constructor
  · intro identity signer hchain hsig
    unfold buildTLSCertificate
    rw [hchain, hsig]
  · intro identity hne
    unfold buildTLSCertificate
    cases hc : identity.chainResult with
    | error e => simp
    | ok chain =>
      cases hs : identity.signerResult with
      | error e => simp
      | ok signer =>
        cases chain with
        | nil => exact absurd rfl (hne [] hc)
        | cons leaf rest => simp

/-- Helper: a successful `findLoop` run splits the sequence at the first
identity satisfying the rule; the closed identities are exactly those
examined before it, in order, and nothing after it is touched. -/
theorem findLoop_ok_shape (sel : CertInfo → String) (p : CompiledPattern) :
    ∀ (identities : List Identity) (m : Identity) (evs : List CloseEvent),
    findLoop identities sel p = (some m, evs) →
    ∃ pre post, identities = pre ++ m :: post ∧
      (∃ info, m.certResult = .ok info ∧ p.matchString (sel info) = true) ∧
      (∀ x ∈ pre,
        ¬ ∃ info, x.certResult = .ok info ∧ p.matchString (sel info) = true) ∧
      evs = pre.map (fun i => CloseEvent.ident i.id) := by
  intro identities
  induction identities with
  | nil =>
    intro m evs h
    simp [findLoop] at h
  | cons tmpID rest ih =>
    intro m evs h
    simp only [findLoop] at h
    cases hc : tmpID.certResult with
    | error e =>
      rw [hc] at h
      simp only at h
      rcases hfr : findLoop rest sel p with ⟨mo, evs'⟩
      rw [hfr] at h
      simp only [Prod.mk.injEq] at h
      obtain ⟨h1, h2⟩ := h
      subst h1
      obtain ⟨pre, post, hsplit, hm, hpre, hevs⟩ := ih m evs' hfr
      refine ⟨tmpID :: pre, post, by rw [hsplit]; rfl, hm, ?_, ?_⟩
      · intro x hx
        rcases List.mem_cons.mp hx with hx | hx
        · subst hx
          rintro ⟨info, hinfo, _⟩
          rw [hc] at hinfo
          cases hinfo
        · exact hpre x hx
      · rw [← h2, hevs]
        rfl
    | ok certInfo =>
      rw [hc] at h
      simp only at h
      by_cases hmatch : p.matchString (sel certInfo) = true
      · rw [if_pos hmatch] at h
        simp only [Prod.mk.injEq] at h
        obtain ⟨h1, h2⟩ := h
        cases h1
        exact ⟨[], rest, rfl, ⟨certInfo, hc, hmatch⟩, by simp, by rw [← h2]; rfl⟩
      · rw [if_neg hmatch] at h
        rcases hfr : findLoop rest sel p with ⟨mo, evs'⟩
        rw [hfr] at h
        simp only [Prod.mk.injEq] at h
        obtain ⟨h1, h2⟩ := h
        subst h1
        obtain ⟨pre, post, hsplit, hm, hpre, hevs⟩ := ih m evs' hfr
        refine ⟨tmpID :: pre, post, by rw [hsplit]; rfl, hm, ?_, ?_⟩
        · intro x hx
          rcases List.mem_cons.mp hx with hx | hx
          · subst hx
            rintro ⟨info, hinfo, hmm⟩
            rw [hc] at hinfo
            cases hinfo
            exact hmatch hmm
          · exact hpre x hx
        · rw [← h2, hevs]
          rfl

/-- C5 (amended): a successful `findMatchingIdentity` run returns the first
identity, in enumeration order, whose selected field satisfies the rule;
the identities it closes are exactly those examined before the match (the
`Close` events list them in order), and identities after the first match
are not closed by the matcher. -/
theorem findMatchingIdentity_first_match (identities : List Identity)
    (p : CompiledPattern) (field : String) (m : Identity)
    (evs : List CloseEvent)
    (h : findMatchingIdentity identities (some p) field = (.ok m, evs)) :
    ∃ pre post, identities = pre ++ m :: post ∧
      matchesRule p field m ∧
      (∀ x ∈ pre, ¬ matchesRule p field x) ∧
      evs = pre.map (fun i => CloseEvent.ident i.id) := by
  simp only [findMatchingIdentity] at h
  rcases hfl : findLoop identities (getFieldSelector field) p with ⟨mo, evs'⟩
  rw [hfl] at h
  cases mo with
  | some m' =>
    simp only [Prod.mk.injEq] at h
    obtain ⟨h1, h2⟩ := h
    cases h1
    subst h2
    exact findLoop_ok_shape (getFieldSelector field) p identities m evs' hfl
  | none =>
    simp only [Prod.mk.injEq] at h
    obtain ⟨h1, _⟩ := h
    cases h1

/-- C5 (counterexample): on identities [A(no match), B(match), C(match)] the
matcher returns B but closes only A: the close events are exactly
`[ident 0]`, and C (identity 2) is not closed, contrary to the claim that
both A and C are closed. -/
theorem findMatchingIdentity_leaves_post_match_open :
    findMatchingIdentity [idA, idB, idC] (some patB) "subject" =
      (.ok idB, [CloseEvent.ident 0]) ∧
    CloseEvent.ident 2 ∉ [CloseEvent.ident 0] :=
  ⟨rfl, by decide⟩

/-- C5 (witness for the amended theorem): instantiated on the concrete
sequence [A(no match), B(match), C(match)]. -/
theorem findMatchingIdentity_first_match_witness :
    findMatchingIdentity [idA, idB, idC] (some patB) "subject" =
      (.ok idB, [CloseEvent.ident 0]) ∧
    ∃ pre post, [idA, idB, idC] = pre ++ idB :: post ∧
      matchesRule patB "subject" idB ∧
      (∀ x ∈ pre, ¬ matchesRule patB "subject" x) ∧
      [CloseEvent.ident 0] = pre.map (fun i => CloseEvent.ident i.id) :=
  ⟨rfl, findMatchingIdentity_first_match [idA, idB, idC] patB "subject" idB
    [CloseEvent.ident 0] rfl⟩

/-- C4 (failing input): on a builder failure with an identity enumerated
after the match, `loadCertificateWithResources` returns the error having
closed the matched identity (1) and the store (10) but not identity 2,
which was opened by the enumeration: a native handle leak on a failure
path. -/
theorem loadCertificateWithResources_builder_failure_leaks :
    loadCertificateWithResources csOk envBuilderFail =
      (some (.error "chain unavailable"),
       [CloseEvent.ident 1, CloseEvent.store 10]) ∧
    openedHandles csOk envBuilderFail =
      [CloseEvent.store 10, CloseEvent.ident 1, CloseEvent.ident 2] ∧
    CloseEvent.ident 2 ∉ [CloseEvent.ident 1, CloseEvent.store 10] :=
  ⟨rfl, rfl, by decide⟩

/-- Helper: wrapped int32 addition agrees with exact addition in range. -/
theorem i32add_eq (a b : Int) (h1 : -(2 ^ 31) ≤ a + b) (h2 : a + b < 2 ^ 31) :
    i32add a b = a + b := by
  unfold i32add
  omega

/-- Helper: looking up a key no entry carries finds nothing. -/
theorem cacheLookup_none_of_all_ne (cache : CacheState) (key : String)
    (h : ∀ x ∈ cache, x.cacheKey ≠ key) : cacheLookup cache key = none := by
  unfold cacheLookup
  rw [List.find?_eq_none]
  intro x hx
  simpa using h x hx

/-- Helper: lookup finds a matching head entry. -/
theorem cacheLookup_cons_self (e : CachedCert) (cache : CacheState)
    (key : String) (he : e.cacheKey = key) :
    cacheLookup (e :: cache) key = some e := by
  unfold cacheLookup
  simp [List.find?, he]

/-- Helper: bumping a key no entry carries changes nothing. -/
theorem cacheBump_of_all_ne (cache : CacheState) (key : String)
    (h : ∀ x ∈ cache, x.cacheKey ≠ key) : cacheBump cache key = cache := by
  induction cache with
  | nil => rfl
  | cons x rest ih =>
    have hx : ¬ ((x.cacheKey == key) = true) := by
      simpa using h x (List.mem_cons_self x rest)
    calc cacheBump (x :: rest) key
        = (if (x.cacheKey == key) = true then
             { x with refCount := i32add x.refCount 1 }
           else x) :: cacheBump rest key := rfl
      _ = x :: cacheBump rest key := by rw [if_neg hx]
      _ = x :: rest :=
          congrArg (List.cons x)
            (ih (fun y hy => h y (List.mem_cons_of_mem x hy)))

/-- Helper: setting a count on a key no entry carries changes nothing. -/
theorem cacheSet_of_all_ne (cache : CacheState) (key : String) (n : Int)
    (h : ∀ x ∈ cache, x.cacheKey ≠ key) : cacheSet cache key n = cache := by
  induction cache with
  | nil => rfl
  | cons x rest ih =>
    have hx : ¬ ((x.cacheKey == key) = true) := by
      simpa using h x (List.mem_cons_self x rest)
    calc cacheSet (x :: rest) key n
        = (if (x.cacheKey == key) = true then { x with refCount := n }
           else x) :: cacheSet rest key n := rfl
      _ = x :: cacheSet rest key n := by rw [if_neg hx]
      _ = x :: rest :=
          congrArg (List.cons x)
            (ih (fun y hy => h y (List.mem_cons_of_mem x hy)))

/-- Helper: removing a key no entry carries changes nothing. -/
theorem cacheRemove_of_all_ne (cache : CacheState) (key : String)
    (h : ∀ x ∈ cache, x.cacheKey ≠ key) : cacheRemove cache key = cache := by
  induction cache with
  | nil => rfl
  | cons x rest ih =>
    have hx : (!(x.cacheKey == key)) = true := by
      simpa using h x (List.mem_cons_self x rest)
    calc cacheRemove (x :: rest) key
        = x :: cacheRemove rest key :=
          List.filter_cons_of_pos hx
      _ = x :: rest :=
          congrArg (List.cons x)
            (ih (fun y hy => h y (List.mem_cons_of_mem x hy)))

/-- Helper: the head entry form of `cacheBump`. -/
theorem cacheBump_cons_self (e : CachedCert) (cache₀ : CacheState)
    (key : String) (he : e.cacheKey = key)
    (hnone : ∀ x ∈ cache₀, x.cacheKey ≠ key) :
    cacheBump (e :: cache₀) key =
      { e with refCount := i32add e.refCount 1 } :: cache₀ := by
  have hx : (e.cacheKey == key) = true := by simpa using he
  calc cacheBump (e :: cache₀) key
      = (if (e.cacheKey == key) = true then
           { e with refCount := i32add e.refCount 1 }
         else e) :: cacheBump cache₀ key := rfl
    _ = { e with refCount := i32add e.refCount 1 } :: cacheBump cache₀ key := by
        rw [if_pos hx]
    _ = { e with refCount := i32add e.refCount 1 } :: cache₀ :=
        congrArg _ (cacheBump_of_all_ne cache₀ key hnone)

/-- Helper: the head entry form of `cacheSet`. -/
theorem cacheSet_cons_self (e : CachedCert) (cache₀ : CacheState)
    (key : String) (n : Int) (he : e.cacheKey = key)
    (hnone : ∀ x ∈ cache₀, x.cacheKey ≠ key) :
    cacheSet (e :: cache₀) key n = { e with refCount := n } :: cache₀ := by
  have hx : (e.cacheKey == key) = true := by simpa using he
  calc cacheSet (e :: cache₀) key n
      = (if (e.cacheKey == key) = true then { e with refCount := n }
         else e) :: cacheSet cache₀ key n := rfl
    _ = { e with refCount := n } :: cacheSet cache₀ key n := by rw [if_pos hx]
    _ = { e with refCount := n } :: cache₀ :=
        congrArg _ (cacheSet_of_all_ne cache₀ key n hnone)

/-- Helper: the head entry form of `cacheRemove`. -/
theorem cacheRemove_cons_self (e : CachedCert) (cache₀ : CacheState)
    (key : String) (he : e.cacheKey = key)
    (hnone : ∀ x ∈ cache₀, x.cacheKey ≠ key) :
    cacheRemove (e :: cache₀) key = cache₀ := by
  have hx : (!(e.cacheKey == key)) = false := by simpa using he
  calc cacheRemove (e :: cache₀) key
      = cacheRemove cache₀ key := List.filter_cons_of_neg (by simp [hx])
    _ = cache₀ := cacheRemove_of_all_ne cache₀ key hnone

/-- Helper: a `getCachedCertificate` call that resolves to a key absent from
the table inserts a fresh entry with reference count 1 at the head. -/
theorem resolveStep_no_entry (p : CertSelector × StoreEnv)
    (cache : CacheState) (key : String)
    (hres : resolvesToKey p key) (hnone : ∀ x ∈ cache, x.cacheKey ≠ key) :
    ∃ cert storeId identity,
      resolveStep p cache =
        ⟨cert, some identity, some storeId, 1, key⟩ :: cache := by
  obtain ⟨⟨cert, storeId, identity⟩, evs, hload, hmk⟩ := hres
  refine ⟨cert, storeId, identity, ?_⟩
  simp only at hmk
  unfold resolveStep getCachedCertificate
  rw [hload]
  simp only
  rw [hmk, cacheLookup_none_of_all_ne cache key hnone]

/-- Helper: a `getCachedCertificate` call that resolves to the key of the
head entry bumps that entry's reference count and touches nothing else. -/
theorem resolveStep_entry_head (p : CertSelector × StoreEnv) (key : String)
    (e : CachedCert) (cache₀ : CacheState)
    (hres : resolvesToKey p key) (he : e.cacheKey = key)
    (hnone : ∀ x ∈ cache₀, x.cacheKey ≠ key) :
    resolveStep p (e :: cache₀) =
      { e with refCount := i32add e.refCount 1 } :: cache₀ := by
  obtain ⟨⟨cert, storeId, identity⟩, evs, hload, hmk⟩ := hres
  simp only at hmk
  unfold resolveStep getCachedCertificate
  rw [hload]
  simp only
  rw [hmk, cacheLookup_cons_self e cache₀ key he]
  simp only
  exact cacheBump_cons_self e cache₀ key he hnone

/-- Helper: a run of successful resolutions to the key of the head entry
adds their number to the head reference count (no wrap below 2^31). -/
theorem runResolves_bump (key : String) :
    ∀ (ops : List (CertSelector × StoreEnv)) (cache₀ : CacheState)
      (e : CachedCert) (m : Nat),
    (∀ p ∈ ops, resolvesToKey p key) →
    (∀ x ∈ cache₀, x.cacheKey ≠ key) →
    e.cacheKey = key → e.refCount = (m : Int) →
    m + ops.length < 2 ^ 31 →
    runResolves ops (e :: cache₀) =
      { e with refCount := ((m + ops.length : Nat) : Int) } :: cache₀ := by
  intro ops
  induction ops with
  | nil =>
    intro cache₀ e m hres hkey he hm hbound
    have h1 : ({ e with
        refCount := ((m + ([] : List (CertSelector × StoreEnv)).length : Nat) :
          Int) } : CachedCert) = e := by
      have h2 : ((m + ([] : List (CertSelector × StoreEnv)).length : Nat) :
          Int) = e.refCount := by simp [hm]
      rw [h2]
    rw [h1]
    rfl
  | cons p rest ih =>
    intro cache₀ e m hres hkey he hm hbound
    have hstep := resolveStep_entry_head p key e cache₀
      (hres p (List.mem_cons_self p rest)) he hkey
    have hadd : i32add e.refCount 1 = ((m + 1 : Nat) : Int) := by
      rw [hm]
      rw [i32add_eq (m : Int) 1 (by push_cast; omega)
        (by have : (p :: rest).length = rest.length + 1 := rfl
            push_cast
            omega)]
      push_cast
      ring
    have hrun : runResolves (p :: rest) (e :: cache₀) =
        runResolves rest (resolveStep p (e :: cache₀)) := rfl
    rw [hrun, hstep, hadd]
    have hnext := ih cache₀ { e with refCount := ((m + 1 : Nat) : Int) }
      (m + 1) (fun q hq => hres q (List.mem_cons_of_mem p hq)) hkey he rfl
      (by have : (p :: rest).length = rest.length + 1 := rfl
          omega)
    rw [hnext]
    have harith : (m + 1) + rest.length = m + (p :: rest).length := by
      have : (p :: rest).length = rest.length + 1 := rfl
      omega
    rw [harith]

/-- Helper: one release on the key of a head entry with count at least 2
keeps the entry, decrementing its count. -/
theorem releaseStep_decrements (key : String) (e : CachedCert)
    (cache₀ : CacheState) (m : Nat)
    (hkey : ∀ x ∈ cache₀, x.cacheKey ≠ key) (he : e.cacheKey = key)
    (hm : e.refCount = (m : Int)) (h2 : 2 ≤ m) (hb : m < 2 ^ 31) :
    releaseStep key (e :: cache₀) =
      { e with refCount := ((m - 1 : Nat) : Int) } :: cache₀ := by
  unfold releaseStep releaseCachedCertificate
  rw [cacheLookup_cons_self e cache₀ key he]
  simp only
  have hadd : i32add e.refCount (-1) = ((m - 1 : Nat) : Int) := by
    rw [hm]
    rw [i32add_eq (m : Int) (-1) (by omega) (by omega)]
    push_cast [Nat.cast_sub (by omega : 1 ≤ m)]
    ring
  rw [hadd]
  rw [if_neg (by omega)]
  exact cacheSet_cons_self e cache₀ key _ he hkey

/-- Helper: one release on the key of a head entry with count 1 closes the
handles and removes the entry. -/
theorem releaseStep_removes (key : String) (e : CachedCert)
    (cache₀ : CacheState)
    (hkey : ∀ x ∈ cache₀, x.cacheKey ≠ key) (he : e.cacheKey = key)
    (hm : e.refCount = (1 : Int)) :
    releaseStep key (e :: cache₀) = cache₀ := by
  unfold releaseStep releaseCachedCertificate
  rw [cacheLookup_cons_self e cache₀ key he]
  simp only
  have hadd : i32add e.refCount (-1) = 0 := by
    rw [hm]
    rw [i32add_eq 1 (-1) (by omega) (by omega)]
    norm_num
  rw [hadd]
  rw [if_pos (by omega)]
  exact cacheRemove_cons_self e cache₀ key he hkey

/-- Helper: j releases with j below the head count decrement it by j. -/
theorem runReleases_decrements (key : String) :
    ∀ (j : Nat) (cache₀ : CacheState) (e : CachedCert) (m : Nat),
    (∀ x ∈ cache₀, x.cacheKey ≠ key) → e.cacheKey = key →
    e.refCount = (m : Int) → j < m → m < 2 ^ 31 →
    runReleases key j (e :: cache₀) =
      { e with refCount := ((m - j : Nat) : Int) } :: cache₀ := by
  intro j
  induction j with
  | zero =>
    intro cache₀ e m hkey he hm hj hb
    have h1 : ({ e with refCount := ((m - 0 : Nat) : Int) } : CachedCert)
        = e := by
      have h2 : ((m - 0 : Nat) : Int) = e.refCount := by simp [hm]
      rw [h2]
    rw [h1]
    rfl
  | succ j ih =>
    intro cache₀ e m hkey he hm hj hb
    have hit : runReleases key (j + 1) (e :: cache₀) =
        runReleases key j (releaseStep key (e :: cache₀)) := by
      simp only [runReleases, Function.iterate_succ_apply]
    rw [hit]
    rw [releaseStep_decrements key e cache₀ m hkey he hm (by omega) hb]
    have hnext := ih cache₀ { e with refCount := ((m - 1 : Nat) : Int) }
      (m - 1) hkey he rfl (by omega) (by omega)
    rw [hnext]
    have harith : m - 1 - j = m - (j + 1) := by omega
    rw [harith]

/-- Helper: with head count m, exactly m releases empty the head entry and
give back the untouched tail. -/
theorem runReleases_removes_all (key : String) (cache₀ : CacheState)
    (e : CachedCert) (m : Nat)
    (hkey : ∀ x ∈ cache₀, x.cacheKey ≠ key) (he : e.cacheKey = key)
    (hm : e.refCount = (m : Int)) (h1 : 1 ≤ m) (hb : m < 2 ^ 31) :
    runReleases key m (e :: cache₀) = cache₀ := by
  obtain ⟨j, hjm⟩ := Nat.exists_eq_add_of_le h1
  subst hjm
  have hsplit : runReleases key (1 + j) (e :: cache₀) =
      (releaseStep key)^[1] ((releaseStep key)^[j] (e :: cache₀)) := by
    simp only [runReleases, Function.iterate_add_apply]
  rw [hsplit]
  have hd := runReleases_decrements key j cache₀ e (1 + j) hkey he hm
    (by omega) hb
  simp only [runReleases] at hd
  rw [hd]
  rw [Function.iterate_one]
  refine releaseStep_removes key _ cache₀ hkey he ?_
  have : ((1 + j - j : Nat) : Int) = (1 : Int) := by
    have : 1 + j - j = 1 := by omega
    rw [this]
    rfl
  exact this

/-- C1: for every fingerprint key, starting from a table holding no entry
for that key, after k successful `getCachedCertificate` calls resolving to
that key followed by j `releaseCachedCertificate` calls with it (j ≤ k,
k below int32 range), the entry's reference count is k − j and the entry
is present iff k − j > 0; it is removed (the table returns to its initial
state) exactly when the count reaches 0. -/
theorem cache_refcount_balance (key : String)
    (ops : List (CertSelector × StoreEnv)) (cache₀ : CacheState) (j : Nat)
    (hres : ∀ p ∈ ops, resolvesToKey p key)
    (hkey : ∀ x ∈ cache₀, x.cacheKey ≠ key)
    (hj : j ≤ ops.length) (hk : ops.length < 2 ^ 31) :
    (j < ops.length →
      ∃ e, cacheLookup (runReleases key j (runResolves ops cache₀)) key =
          some e ∧
        e.refCount = ((ops.length - j : Nat) : Int) ∧ e.cacheKey = key) ∧
    (j = ops.length →
      runReleases key j (runResolves ops cache₀) = cache₀ ∧
      cacheLookup (runReleases key j (runResolves ops cache₀)) key =
        none) := by
  cases ops with
  | nil =>
    constructor
    · intro h
      exact absurd h (by simp)
    · intro h
      subst h
      refine ⟨rfl, ?_⟩
      exact cacheLookup_none_of_all_ne cache₀ key hkey
  | cons p rest =>
    obtain ⟨cert, storeId, identity, hstep⟩ :=
      resolveStep_no_entry p cache₀ key (hres p (List.mem_cons_self p rest))
        hkey
    have hlen : (p :: rest).length = 1 + rest.length := by
      simp [Nat.add_comm]
    have hrun : runResolves (p :: rest) cache₀ =
        { cert := cert, identity := some identity, storeId := some storeId,
          refCount := ((1 + rest.length : Nat) : Int), cacheKey := key } ::
          cache₀ := by
      have h0 : runResolves (p :: rest) cache₀ =
          runResolves rest (resolveStep p cache₀) := rfl
      rw [h0, hstep]
      have := runResolves_bump key rest cache₀
        ⟨cert, some identity, some storeId, 1, key⟩ 1
        (fun q hq => hres q (List.mem_cons_of_mem p hq)) hkey rfl
        (by norm_num) (by omega)
      rw [this]
    constructor
    · intro hjlt
      rw [hrun]
      rw [runReleases_decrements key j cache₀ _ (1 + rest.length) hkey rfl
        rfl (by omega) (by omega)]
      refine ⟨_, cacheLookup_cons_self _ cache₀ key rfl, ?_, rfl⟩
      have : 1 + rest.length - j = (p :: rest).length - j := by
        rw [hlen]
      rw [this]
    · intro hjeq
      rw [hrun]
      have hfin : runReleases key j
          ({ cert := cert, identity := some identity,
             storeId := some storeId,
             refCount := ((1 + rest.length : Nat) : Int), cacheKey := key } ::
            cache₀) = cache₀ := by
        have : j = 1 + rest.length := by rw [hjeq, hlen]
        rw [this]
        exact runReleases_removes_all key cache₀ _ (1 + rest.length) hkey rfl
          rfl (by omega) (by omega)
      rw [hfin]
      exact ⟨rfl, cacheLookup_none_of_all_ne cache₀ key hkey⟩

/-- C1 (witness): two successful resolutions of the concrete healthy store
followed by one release leave one entry with reference count 1. -/
theorem cache_refcount_balance_witness :
    (∀ p ∈ [(csOk, envOk), (csOk, envOk)],
      resolvesToKey p (makeCacheKey leafCert)) ∧
    (1 : Nat) ≤ [(csOk, envOk), (csOk, envOk)].length ∧
    ((1 : Nat) < [(csOk, envOk), (csOk, envOk)].length →
      ∃ e, cacheLookup (runReleases (makeCacheKey leafCert) 1
          (runResolves [(csOk, envOk), (csOk, envOk)] []))
          (makeCacheKey leafCert) = some e ∧
        e.refCount = (([(csOk, envOk), (csOk, envOk)].length - 1 : Nat) :
          Int) ∧
        e.cacheKey = makeCacheKey leafCert) := by
  have hres : ∀ p ∈ [(csOk, envOk), (csOk, envOk)],
      resolvesToKey p (makeCacheKey leafCert) := by
    intro p hp
    cases hp with
    | head => exact ⟨(certB, 10, idB), [], rfl, rfl⟩
    | tail _ hp2 =>
      cases hp2 with
      | head => exact ⟨(certB, 10, idB), [], rfl, rfl⟩
      | tail _ hp3 => cases hp3
  refine ⟨hres, by norm_num, ?_⟩
  exact (cache_refcount_balance (makeCacheKey leafCert)
    [(csOk, envOk), (csOk, envOk)] [] 1 hres (by simp) (by norm_num)
    (by norm_num)).1

/-- Helper: lookup after a bump is the bumped lookup. -/
theorem cacheLookup_bump (cache : CacheState) (key : String) :
    cacheLookup (cacheBump cache key) key =
      (cacheLookup cache key).map
        (fun e => { e with refCount := i32add e.refCount 1 }) := by
  induction cache with
  | nil => rfl
  | cons x rest ih =>
    by_cases hx : (x.cacheKey == key) = true
    · have h1 : cacheBump (x :: rest) key =
          { x with refCount := i32add x.refCount 1 } :: cacheBump rest key := by
        calc cacheBump (x :: rest) key
            = (if (x.cacheKey == key) = true then
                 { x with refCount := i32add x.refCount 1 }
               else x) :: cacheBump rest key := rfl
          _ = _ := by rw [if_pos hx]
      rw [h1]
      unfold cacheLookup
      rw [List.find?_cons_of_pos (cacheBump rest key)
        (show (fun c : CachedCert => c.cacheKey == key)
          { x with refCount := i32add x.refCount 1 } = true from hx)]
      rw [List.find?_cons_of_pos rest
        (show (fun c : CachedCert => c.cacheKey == key) x = true from hx)]
      rfl
    · have h1 : cacheBump (x :: rest) key = x :: cacheBump rest key := by
        calc cacheBump (x :: rest) key
            = (if (x.cacheKey == key) = true then
                 { x with refCount := i32add x.refCount 1 }
               else x) :: cacheBump rest key := rfl
          _ = _ := by rw [if_neg hx]
      rw [h1]
      unfold cacheLookup at *
      rw [List.find?_cons_of_neg (cacheBump rest key)
        (show ¬ (fun c : CachedCert => c.cacheKey == key) x = true from hx)]
      rw [List.find?_cons_of_neg rest
        (show ¬ (fun c : CachedCert => c.cacheKey == key) x = true from hx)]
      exact ih

/-- C2: when `getCachedCertificate` computes a fingerprint an entry already
exists for, it returns the already-cached certificate value, closes the
newly opened candidate identity and then its store, increments that entry's
reference count, and leaves every resident entry's certificate, native
handles and key untouched. -/
theorem getCachedCertificate_reuses_entry (cs : CertSelector)
    (env : StoreEnv) (cache : CacheState) (cert : TLSCert) (storeId : Nat)
    (identity : Identity) (evs : List CloseEvent) (cached : CachedCert)
    (hload : loadCertificateWithResources cs env =
      (some (.ok (cert, storeId, identity)), evs))
    (hhit : cacheLookup cache (makeCacheKey cert.leaf) = some cached) :
    getCachedCertificate cs env cache =
      (some (.ok (cached.cert, makeCacheKey cert.leaf)),
       cacheBump cache (makeCacheKey cert.leaf),
       evs ++ [CloseEvent.ident identity.id, CloseEvent.store storeId]) ∧
    cacheLookup (cacheBump cache (makeCacheKey cert.leaf))
        (makeCacheKey cert.leaf) =
      some { cached with refCount := i32add cached.refCount 1 } ∧
    ∀ x ∈ cacheBump cache (makeCacheKey cert.leaf),
      ∃ y ∈ cache, x.identity = y.identity ∧ x.storeId = y.storeId ∧
        x.cert = y.cert ∧ x.cacheKey = y.cacheKey := by
  refine ⟨?_, ?_, ?_⟩
  · unfold getCachedCertificate
    rw [hload]
    simp only
    rw [hhit]
  · rw [cacheLookup_bump, hhit]
    rfl
  · intro x hx
    obtain ⟨y, hy, hxy⟩ := List.mem_map.mp hx
    refine ⟨y, hy, ?_⟩
    by_cases hk : (y.cacheKey == makeCacheKey cert.leaf) = true
    · rw [if_pos hk] at hxy
      subst hxy
      exact ⟨rfl, rfl, rfl, rfl⟩
    · rw [if_neg hk] at hxy
      subst hxy
      exact ⟨rfl, rfl, rfl, rfl⟩

/-- C2 (witness): the concrete healthy store against a table already holding
the entry for its certificate. -/
theorem getCachedCertificate_reuses_entry_witness :
    loadCertificateWithResources csOk envOk =
      (some (.ok (certB, 10, idB)), []) ∧
    cacheLookup [entryB] (makeCacheKey certB.leaf) = some entryB ∧
    (getCachedCertificate csOk envOk [entryB] =
      (some (.ok (entryB.cert, makeCacheKey certB.leaf)),
       cacheBump [entryB] (makeCacheKey certB.leaf),
       [] ++ [CloseEvent.ident idB.id, CloseEvent.store 10]) ∧
    cacheLookup (cacheBump [entryB] (makeCacheKey certB.leaf))
        (makeCacheKey certB.leaf) =
      some { entryB with refCount := i32add entryB.refCount 1 } ∧
    ∀ x ∈ cacheBump [entryB] (makeCacheKey certB.leaf),
      ∃ y ∈ [entryB], x.identity = y.identity ∧ x.storeId = y.storeId ∧
        x.cert = y.cert ∧ x.cacheKey = y.cacheKey) :=
  ⟨rfl, rfl,
   getCachedCertificate_reuses_entry csOk envOk [entryB] certB 10 idB []
     entryB rfl rfl⟩

/-- Helper: everything surviving a remove has a different key. -/
theorem cacheRemove_all_ne (cache : CacheState) (key : String) :
    ∀ x ∈ cacheRemove cache key, x.cacheKey ≠ key := by
  intro x hx
  have hm := List.mem_filter.mp hx
  simpa using hm.2

/-- C3: `releaseCachedCertificate` is a total function (no error, no panic)
and a no-op — the table unchanged, no `Close` issued — when no entry exists
for the key; otherwise it decrements the entry's reference count and, when
the result is ≤ 0, closes the entry's identity first, then its store, and
removes the entry (afterwards the key is absent); when the result is > 0 it
only stores the decremented count.  The Go code holds the table lock for the
whole step, modelled as one atomic table transition. -/
theorem releaseCachedCertificate_spec (cacheKey : String)
    (cache : CacheState) :
    (cacheLookup cache cacheKey = none →
      releaseCachedCertificate cacheKey cache = (cache, [])) ∧
    (∀ cached, cacheLookup cache cacheKey = some cached →
      i32add cached.refCount (-1) ≤ 0 →
      releaseCachedCertificate cacheKey cache =
        (cacheRemove cache cacheKey,
         (match cached.identity with
          | some i => [CloseEvent.ident i.id]
          | none => []) ++
         (match cached.storeId with
          | some s => [CloseEvent.store s]
          | none => [])) ∧
      cacheLookup (cacheRemove cache cacheKey) cacheKey = none) ∧
    (∀ cached, cacheLookup cache cacheKey = some cached →
      0 < i32add cached.refCount (-1) →
      releaseCachedCertificate cacheKey cache =
        (cacheSet cache cacheKey (i32add cached.refCount (-1)), [])) := by
  refine ⟨?_, ?_, ?_⟩
  · intro h
    unfold releaseCachedCertificate
    rw [h]
  · intro cached h hle
    unfold releaseCachedCertificate
    rw [h]
    simp only
    rw [if_pos hle]
    exact ⟨rfl, cacheLookup_none_of_all_ne _ _ (cacheRemove_all_ne cache cacheKey)⟩
  · intro cached h hgt
    unfold releaseCachedCertificate
    rw [h]
    simp only
    rw [if_neg (by omega)]

/-- C6 (counterexample): the transport's `Cleanup` does not clear the
stored fingerprint.  With the entry "K" shared by two holders, the first
cleanup returns the transport unchanged — the fingerprint is still "K" —
and a second cleanup on the same transport performs another release,
removing the entry and closing its native handles, instead of being a
no-op. -/
theorem transportCleanup_second_release_decrements :
    transportCleanup trans6 [entryK] =
      (trans6, [{ entryK with refCount := 1 }], []) ∧
    transportCleanup trans6 [{ entryK with refCount := 1 }] =
      (trans6, [], [CloseEvent.ident 1, CloseEvent.store 10]) := by
  constructor <;> decide

/-- C6 (amended): `HTTPTransport.Cleanup` calls the cache release with the
stored fingerprint when the selector is present and the fingerprint is
non-empty, and otherwise does nothing; it does not clear the stored
fingerprint (the transport is returned unchanged), so a second cleanup
performs another release — which is a no-op only when the entry has already
been removed, and decrements the shared count again when the entry is still
present. -/
theorem transportCleanup_releases_without_clearing :
    (∀ (h : HTTPTransport) (cc : ClientCertState) (cache : CacheState),
      h.clientCert = some cc → cc.cacheKey ≠ "" →
      transportCleanup h cache =
        (h, releaseCachedCertificate cc.cacheKey cache)) ∧
    (∀ (h : HTTPTransport) (cache : CacheState),
      h.clientCert = none → transportCleanup h cache = (h, cache, [])) ∧
    (∀ (h : HTTPTransport) (cc : ClientCertState) (cache : CacheState),
      h.clientCert = some cc → cc.cacheKey = "" →
      transportCleanup h cache = (h, cache, [])) := by
  refine ⟨?_, ?_, ?_⟩
  · intro h cc cache hcc hkey
    unfold transportCleanup
    rw [hcc]
    simp only
    rw [if_pos hkey]
  · intro h cache hcc
    unfold transportCleanup
    rw [hcc]
  · intro h cc cache hcc hkey
    unfold transportCleanup
    rw [hcc]
    simp only
    rw [if_neg (by simp [hkey])]

/-- Helper: a successful build carries a non-empty DER chain (on an empty
chain the builder panics instead of succeeding). -/
theorem buildTLSCertificate_ok_chain_nonempty (identity : Identity)
    (c : TLSCert) (h : buildTLSCertificate identity = some (.ok c)) :
    c.certificate ≠ [] := by
  unfold buildTLSCertificate at h
  cases hc : identity.chainResult with
  | error e =>
    rw [hc] at h
    simp at h
  | ok chain =>
    rw [hc] at h
    cases hs : identity.signerResult with
    | error e =>
      rw [hs] at h
      simp at h
    | ok signer =>
      rw [hs] at h
      cases chain with
      | nil => simp at h
      | cons leaf rest =>
        simp only [Option.some.injEq] at h
        cases h with
        | refl => simp [serializeCertificateChain]

/-- Helper: a successful load carries a non-empty DER chain. -/
theorem loadCertificate_chain_nonempty (cs : CertSelector) (env : StoreEnv)
    (cert : TLSCert) (storeId : Nat) (identity : Identity)
    (evs : List CloseEvent)
    (h : loadCertificateWithResources cs env =
      (some (.ok (cert, storeId, identity)), evs)) :
    cert.certificate ≠ [] := by
  unfold loadCertificateWithResources at h
  cases ho : env.openStore (getStoreLocation cs.location) with
  | error e =>
    rw [ho] at h
    simp at h
  | ok store =>
    rw [ho] at h
    simp only at h
    cases hi : store.identitiesResult with
    | error e =>
      rw [hi] at h
      simp at h
    | ok identities =>
      rw [hi] at h
      simp only at h
      rcases hf : findMatchingIdentity identities cs.pattern cs.field
        with ⟨ro, evs₁⟩
      rw [hf] at h
      cases ro with
      | error e =>
        simp at h
      | ok idm =>
        simp only at h
        cases hb : buildTLSCertificate idm with
        | none =>
          rw [hb] at h
          simp at h
        | some res =>
          rw [hb] at h
          cases res with
          | error e => simp at h
          | ok c =>
            simp only [Prod.mk.injEq, Option.some.injEq,
              Except.ok.injEq] at h
            obtain ⟨⟨hc1, hc2, hc3⟩, hevs⟩ := h
            subst hc1
            exact buildTLSCertificate_ok_chain_nonempty idm c hb

/-- C7 (counterexample): with `Signer()` returning a nil signer and a nil
error, `getCachedCertificate` succeeds, inserts the invalid certificate
(nil private key) into the cache and returns it as a success:
`isValidCertificate` is never consulted on the cache path. -/
theorem getCachedCertificate_caches_nil_key_cert :
    getCachedCertificate csOk envNilSigner [] =
      (some (.ok (certNil, makeCacheKey leafCert)), [entryNil], []) ∧
    isValidCertificate certNil = false ∧
    entryNil ∈ [entryNil] ∧ isValidCertificate entryNil.cert = false :=
  ⟨rfl, by decide, by decide, by decide⟩

/-- C7 (amended): a resolved certificate with an empty raw DER chain is
never inserted into the certificate cache and never returned as a success —
a successful `getCachedCertificate` call always returns a certificate with
a non-empty chain, and every entry of the resulting table has one when the
initial table's entries do (an empty chain makes the builder panic before
any insertion).  No corresponding check exists for the private key: the
counterexample above shows a nil-key certificate being cached and
returned. -/
theorem getCachedCertificate_nonempty_chain (cs : CertSelector)
    (env : StoreEnv) (cache : CacheState) (r : TLSCert × String)
    (cache' : CacheState) (evs : List CloseEvent)
    (hc : ∀ x ∈ cache, x.cert.certificate ≠ [])
    (h : getCachedCertificate cs env cache = (some (.ok r), cache', evs)) :
    r.1.certificate ≠ [] ∧ ∀ x ∈ cache', x.cert.certificate ≠ [] := by
  unfold getCachedCertificate at h
  rcases hload : loadCertificateWithResources cs env with ⟨ro, evs₀⟩
  rw [hload] at h
  cases ro with
  | none => simp at h
  | some res =>
    cases res with
    | error e => simp at h
    | ok t =>
      rcases t with ⟨cert, storeId, identity⟩
      have hne : cert.certificate ≠ [] :=
        loadCertificate_chain_nonempty cs env cert storeId identity evs₀
          hload
      simp only at h
      cases hlook : cacheLookup cache (makeCacheKey cert.leaf) with
      | some cached =>
        rw [hlook] at h
        simp only [Prod.mk.injEq, Option.some.injEq] at h
        obtain ⟨h1, h2, h3⟩ := h
        have hmem : cached ∈ cache := List.mem_of_find?_eq_some hlook
        constructor
        · cases h1 with
          | refl => exact hc cached hmem
        · intro x hx
          rw [← h2] at hx
          obtain ⟨y, hy, hxy⟩ := List.mem_map.mp hx
          have hyne := hc y hy
          by_cases hk : (y.cacheKey == makeCacheKey cert.leaf) = true
          · rw [if_pos hk] at hxy
            rw [← hxy]
            exact hyne
          · rw [if_neg hk] at hxy
            rw [← hxy]
            exact hyne
      | none =>
        rw [hlook] at h
        simp only [Prod.mk.injEq, Option.some.injEq] at h
        obtain ⟨h1, h2, h3⟩ := h
        constructor
        · cases h1 with
          | refl => exact hne
        · intro x hx
          rw [← h2] at hx
          cases hx with
          | head => exact hne
          | tail _ hx2 => exact hc x hx2

/-- C7 (amended, witness): the healthy concrete store resolved against the
empty table. -/
theorem getCachedCertificate_nonempty_chain_witness :
    (∀ x ∈ ([] : CacheState), x.cert.certificate ≠ []) ∧
    getCachedCertificate csOk envOk [] =
      (some (.ok (certB, makeCacheKey leafCert)),
       [⟨certB, some idB, some 10, 1, makeCacheKey leafCert⟩], []) ∧
    (certB.certificate ≠ [] ∧
      ∀ x ∈ [(⟨certB, some idB, some 10, 1,
        makeCacheKey leafCert⟩ : CachedCert)], x.cert.certificate ≠ []) :=
  ⟨fun x hx => absurd hx (List.not_mem_nil x), rfl,
   getCachedCertificate_nonempty_chain csOk envOk []
     (certB, makeCacheKey leafCert)
     [⟨certB, some idB, some 10, 1, makeCacheKey leafCert⟩] []
     (fun x hx => absurd hx (List.not_mem_nil x)) rfl⟩

end CertStore
